import Mathlib

/-!
Verification of the gradian card-game engine (src/gradian/engine.py and the
module message vocabulary in src/gradian/common.py and
src/gradian/module/module_message.py), shallowly embedded in Lean.

The embedding models the per-game engine loop: the collect phase that turns
ready transport events into engine messages, the batch-processing phase that
applies each engine message and interprets the module response, and the
manager-visible effects (frames sent, connections closed, tasks cancelled,
deregistration).  Python dictionaries are modelled as insertion-ordered
association lists; unhandled Python exceptions (KeyError, AttributeError)
are modelled by an explicit crash outcome.
-/

namespace Gradian

/-- Join or start mode (classes Open and Closed in module_message.py). -/
inductive Mode where
  | Open : Mode
  | Closed (reason : String) : Mode
deriving DecidableEq, Repr

/-- A player action (class Action and subclasses in common.py). -/
inductive Action where
  | NextAction : Action
  | SelectCardAction (card_id : Int) : Action
  | SelectCollectionAction (collection_id : Int) : Action
  | AgainstCardAction (select_card_id against_card_id : Int) : Action
  | WildCardAction (card_id type_id : Int) : Action
deriving DecidableEq, Repr

/-- An advertised possibility (class PossibleAction and subclasses in common.py). -/
inductive PossibleAction where
  | NextPossibleAction : PossibleAction
  | SelectCardPossibleAction (card_ids : List Int) : PossibleAction
  | SelectCollectionPossibleAction (collection_ids : List Int) : PossibleAction
  | AgainstCardPossibleAction (select_card_id : Int) (against_card_ids : List Int) : PossibleAction
  | WildCardPossibleAction (card_id : Int) (type_ids : List Int) : PossibleAction
deriving DecidableEq, Repr

/-- Collection display hints (enum CollectionDisplay in common.py). -/
inductive CollectionDisplay where
  | HAND | SPREAD | STACK
deriving DecidableEq, Repr

/-- A graphical action (class Gract and subclasses in common.py). -/
inductive Gract where
  | ShowTypeGract (type_id : Int) (type_name type_desc type_url : String) : Gract
  | ShowCollectionGract (collection_id : Int) (player_id : Option Int)
      (collection_display : CollectionDisplay) : Gract
  | HideCollectionGract (collection_id : Int) : Gract
  | ShowCardGract (card_id type_id collection_id : Int) : Gract
  | MoveCardGract (card_id collection_id : Int) : Gract
  | RevealCardGract (old_card_id new_card_id new_type_id : Int) : Gract
  | ConcealCardGract (old_card_id new_card_id new_type_id : Int) : Gract
  | HideCardGract (card_id : Int) : Gract
  | PossibleActionsGract (possible_actions : List PossibleAction) : Gract
deriving DecidableEq, Repr

/-- A message from the engine to the module (engine_message.py).
The player_id on StartRoundEngMsg models the attribute the engine attaches
at line 528 of engine.py. -/
inductive EngMsg where
  | InitEngMsg : EngMsg
  | PlayerJoinEngMsg (player_id : Nat) (player_name : String) : EngMsg
  | PlayerLeaveEngMsg (player_id : Nat) : EngMsg
  | StartRoundEngMsg (player_id : Nat) : EngMsg
  | EndRoundEngMsg : EngMsg
  | PlayerActionEngMsg (player_id : Nat) (action : Action) : EngMsg
deriving DecidableEq, Repr

/-- A message from the module to the engine (module_message.py).
The gract bundle of GractModMsg is the sequence of (player id, gract list)
pairs produced by iterating the GractLists object. -/
inductive ModMsg where
  | EmptyModMsg : ModMsg
  | ChangeStateModMsg (join_mode start_mode : Mode) : ModMsg
  | EndRoundModMsg (reason : String) : ModMsg
  | EndGameModMsg (reason : String) : ModMsg
  | GractModMsg (gract_lists : List (Nat × List Gract)) : ModMsg
deriving DecidableEq, Repr

/-- A parsed client-to-server WebSocket message (classes WsMsg, WsIntroMsg,
WsStartMsg, WsActionMsg, WsCloseMsg in engine.py).  WsCloseMsg also stands
for any malformed frame, which WsWrapper.recv converts to a close. -/
inductive WsMsg where
  | WsIntroMsg (player_name : String) : WsMsg
  | WsStartMsg : WsMsg
  | WsActionMsg (action : Action) : WsMsg
  | WsCloseMsg : WsMsg
deriving DecidableEq, Repr

/-- A server-to-client frame at the level of WsWrapper send methods. -/
inductive Frame where
  | intro (game_id player_id : Nat) : Frame
  | gractList (gracts : List Gract) : Frame
  | endRound (reason : String) : Frame
  | endGame (reason : String) : Frame
  | error (reason : String) : Frame
deriving DecidableEq, Repr

/-- An observable effect of the engine: a frame sent on the connection of the
player (or pending joiner) with the given id, a connection close, a call of
the module processing method, a task cancellation, or removal of the engine
entry from the manager map. -/
inductive Event where
  | send (player_id : Nat) (frame : Frame) : Event
  | closeConn (player_id : Nat) : Event
  | moduleCall (msg : EngMsg) : Event
  | cancelTask (task_id : Nat) : Event
  | deregister : Event
deriving DecidableEq, Repr

/-- A player record (class Player in engine.py); the connection handle is
represented by the player id on events. -/
structure Player where
  id : Nat
  name : String
  possible_actions : List PossibleAction
deriving DecidableEq, Repr

/-- Lookup in an insertion-ordered association list (Python dict read). -/
def dictGet {α : Type} (m : List (Nat × α)) (k : Nat) : Option α :=
  match m with
  | [] => none
  | (k', v) :: rest => if k' = k then some v else dictGet rest k

/-- Update or append in an insertion-ordered association list (Python dict
assignment: an existing key keeps its position, a new key is appended). -/
def dictSet {α : Type} (m : List (Nat × α)) (k : Nat) (v : α) : List (Nat × α) :=
  match m with
  | [] => [(k, v)]
  | (k', v') :: rest => if k' = k then (k, v) :: rest else (k', v') :: dictSet rest k v

/-- Deletion from an insertion-ordered association list (Python del). -/
def dictDel {α : Type} (m : List (Nat × α)) (k : Nat) : List (Nat × α) :=
  match m with
  | [] => []
  | (k', v') :: rest => if k' = k then rest else (k', v') :: dictDel rest k

/-- The mutable engine state (the local variables of the engine coroutine,
engine.py lines 483-493).  Tasks are modelled by numeric identifiers drawn
from the counter next_task_id; aws is the wait tuple built at the end of the
previous iteration (line 679 of engine.py, initially line 492). -/
structure EngineState where
  game_id : Nat
  join_mode : Mode
  start_mode : Mode
  round_active : Bool
  next_player_id : Nat
  new_joins : List (Nat × Player)
  players : List (Nat × Player)
  player_tasks : List (Nat × Nat)
  queue_task : Nat
  next_task_id : Nat
  aws : List Nat
deriving DecidableEq, Repr

/-- Validation of one action against one possibility, mirroring the per-kind
loops at engine.py lines 605-639 (membership uses Python in, i.e. contains). -/
def matchesAction (action : Action) (pa : PossibleAction) : Bool :=
  match action, pa with
  | .NextAction, .NextPossibleAction => true
  | .SelectCardAction c, .SelectCardPossibleAction cs => cs.contains c
  | .SelectCollectionAction c, .SelectCollectionPossibleAction cs => cs.contains c
  | .AgainstCardAction s a, .AgainstCardPossibleAction s' as_ => s == s' && as_.contains a
  | .WildCardAction c t, .WildCardPossibleAction c' ts => c == c' && ts.contains t
  | _, _ => false

/-- The can_perform flag computed at engine.py lines 599-639: true when some
possibility in the list matches the action. -/
def can_perform (possible_actions : List PossibleAction) (action : Action) : Bool :=
  possible_actions.any (matchesAction action)

/-- Outcome of the message-specific pre-handling (engine.py lines 551-644),
before the module is consulted: skip the module call and move to the next
batch message (the continue statements), fall through to the module call at
line 646, return from the engine coroutine, or raise an unhandled exception. -/
inductive PreResult where
  | skip (st : EngineState) (evts : List Event) : PreResult
  | dispatch (st : EngineState) (evts : List Event) : PreResult
  | exitEngine (evts : List Event) : PreResult
  | crash (evts : List Event) : PreResult
deriving DecidableEq, Repr

/-- The pre-handling of one batch message, engine.py lines 551-644.
Faithful points: a rejected join still falls through to the module call; the
StartRound refusal branch reads start_mode.reason even when start_mode is
Open (an AttributeError, modelled as crash); dictionary reads of absent keys
are KeyError crashes; a PlayerAction while no round is active is skipped
silently; an invalid action sends an error frame, closes the connection and
skips the module call. -/
def preProcess (st : EngineState) (msg : EngMsg) : PreResult :=
  match msg with
  | .PlayerJoinEngMsg pid _ =>
    match st.join_mode with
    | .Open =>
      match dictGet st.new_joins pid with
      | none => .crash []
      | some jp =>
        .dispatch { st with
            players := dictSet st.players pid jp,
            new_joins := dictDel st.new_joins pid,
            player_tasks := dictSet st.player_tasks pid st.next_task_id,
            next_task_id := st.next_task_id + 1 }
          [.send pid (.intro st.game_id pid)]
    | .Closed reason =>
      match dictGet st.new_joins pid with
      | none => .crash []
      | some _ =>
        .dispatch { st with new_joins := dictDel st.new_joins pid }
          [.send pid (.error reason)]
  | .PlayerLeaveEngMsg pid =>
    match dictGet st.players pid, dictGet st.player_tasks pid with
    | some _, some _ =>
      let st' := { st with
          players := dictDel st.players pid,
          player_tasks := dictDel st.player_tasks pid }
      if st'.players = [] then .exitEngine [.deregister]
      else .dispatch st' []
    | _, _ => .crash []
  | .StartRoundEngMsg pid =>
    if st.round_active || (match st.start_mode with | .Closed _ => true | .Open => false) then
      match dictGet st.players pid with
      | none => .crash []
      | some _ =>
        match st.start_mode with
        | .Closed reason => .skip st [.send pid (.error reason)]
        | .Open => .crash []
    else
      .dispatch { st with round_active := true } []
  | .EndRoundEngMsg =>
    if st.round_active then .dispatch st [] else .skip st []
  | .PlayerActionEngMsg pid action =>
    if st.round_active then
      match dictGet st.players pid with
      | none => .crash []
      | some player =>
        if can_perform player.possible_actions action then .dispatch st []
        else .skip st [.send pid (.error "invalid action"), .closeConn pid]
    else
      .skip st []
  | .InitEngMsg => .dispatch st []

/-- Folding a gract list over a player record, engine.py lines 672-674: each
PossibleActionsGract replaces the possibility list, so the last one wins. -/
def applyPossActions (p : Player) (gract_list : List Gract) : Player :=
  gract_list.foldl
    (fun p g =>
      match g with
      | .PossibleActionsGract pas => { p with possible_actions := pas }
      | _ => p)
    p

/-- The last PossibleActionsGract payload of a gract list, if any. -/
def lastPossActions (gract_list : List Gract) : Option (List PossibleAction) :=
  gract_list.foldl
    (fun acc g =>
      match g with
      | .PossibleActionsGract pas => some pas
      | _ => acc)
    none

/-- Outcome of processing one batch message end to end: proceed to the next
message with an updated state, return from the engine coroutine, or raise. -/
inductive StepResult where
  | next (st : EngineState) (evts : List Event) : StepResult
  | exitEngine (evts : List Event) : StepResult
  | crash (evts : List Event) : StepResult
deriving DecidableEq, Repr

/-- Interpretation of a GractModMsg bundle, engine.py lines 668-676: for each
pair the player is looked up (KeyError when absent), its possibility list is
replaced by each PossibleActionsGract in order, and the whole gract list is
sent as one frame. -/
def processGractLists (st : EngineState) (ls : List (Nat × List Gract))
    (evts : List Event) : StepResult :=
  match ls with
  | [] => .next st evts
  | (pid, gl) :: rest =>
    match dictGet st.players pid with
    | none => .crash evts
    | some p =>
      processGractLists
        { st with players := dictSet st.players pid (applyPossActions p gl) }
        rest
        (evts ++ [.send pid (.gractList gl)])

/-- Interpretation of the module response, engine.py lines 646-676.  EndGame
sends and closes every admitted player connection in map order, cancels the
tasks of the wait tuple aws, removes the engine from the manager and returns. -/
def interpretResponse (st : EngineState) (response : ModMsg)
    (evts : List Event) : StepResult :=
  match response with
  | .ChangeStateModMsg j s => .next { st with join_mode := j, start_mode := s } evts
  | .EndRoundModMsg reason =>
    .next { st with round_active := false }
      (evts ++ st.players.map (fun pr => Event.send pr.1 (.endRound reason)))
  | .EndGameModMsg reason =>
    .exitEngine
      (evts
        ++ (st.players.map
              (fun pr => [Event.send pr.1 (.endGame reason), Event.closeConn pr.1])).flatten
        ++ st.aws.map Event.cancelTask
        ++ [Event.deregister])
  | .GractModMsg ls => processGractLists st ls evts
  | .EmptyModMsg => .next st evts

/-- Processing of one batch message given the response the module would make
were it called: pre-handling, then (on fall-through) the module call of
engine.py line 646 followed by response interpretation. -/
def processMsg (st : EngineState) (msg : EngMsg) (response : ModMsg) : StepResult :=
  match preProcess st msg with
  | .skip st' evts => .next st' evts
  | .dispatch st' evts => interpretResponse st' response (evts ++ [.moduleCall msg])
  | .exitEngine evts => .exitEngine evts
  | .crash evts => .crash evts

/-- The events of a step outcome. -/
def StepResult.events : StepResult → List Event
  | .next _ e => e
  | .exitEngine e => e
  | .crash e => e

/-- The module received the given message during the step. -/
def moduleCalled (r : StepResult) (m : EngMsg) : Prop :=
  Event.moduleCall m ∈ r.events

instance (r : StepResult) (m : EngMsg) : Decidable (moduleCalled r m) := by
  unfold moduleCalled; infer_instance

/-- Outcome of draining one whole batch (the for loop at engine.py line 551). -/
inductive BatchResult where
  | continues (st : EngineState) (evts : List Event) : BatchResult
  | exitEngine (evts : List Event) : BatchResult
  | crash (evts : List Event) : BatchResult
deriving DecidableEq, Repr

/-- The module instance is modelled extensionally as a function from the
sequence of messages it has received so far (ending in the current one) to
its response; the engine threads the call log. -/
def ModuleFun : Type := List EngMsg → ModMsg

/-- Draining the batch, engine.py lines 551-676.  The module is called, and
its call log extended, exactly on the fall-through paths; each message is
processed under the state left by its predecessors. -/
def processBatch (mod : ModuleFun) (log : List EngMsg) (st : EngineState)
    (msgs : List EngMsg) (acc : List Event) : BatchResult × List EngMsg :=
  match msgs with
  | [] => (.continues st acc, log)
  | msg :: rest =>
    match preProcess st msg with
    | .skip st' evts => processBatch mod log st' rest (acc ++ evts)
    | .exitEngine evts => (.exitEngine (acc ++ evts), log)
    | .crash evts => (.crash (acc ++ evts), log)
    | .dispatch st' evts =>
      let log' := log ++ [msg]
      match interpretResponse st' (mod log') (evts ++ [.moduleCall msg]) with
      | .next st'' evts' => processBatch mod log' st'' rest (acc ++ evts')
      | .exitEngine evts' => (.exitEngine (acc ++ evts'), log')
      | .crash evts' => (.crash (acc ++ evts'), log')

/-- The ready sources of one loop iteration: the result of the join-channel
receive when it completed (the first message received on the new connection),
and the completed per-player receives in player_tasks order. -/
structure IterationInput where
  queue_msg : Option WsMsg
  player_msgs : List (Nat × WsMsg)
deriving Repr

/-- The per-player part of the collect phase, engine.py lines 518-549: a
start or action message is converted to an engine message and a replacement
receive is scheduled; anything else closes the connection and becomes a
leave message.  Scheduling the replacement reads players[player_id], a
KeyError (None) when absent. -/
def collectPlayers (st : EngineState) (inps : List (Nat × WsMsg)) :
    Option (EngineState × List EngMsg × List Event) :=
  match inps with
  | [] => some (st, [], [])
  | (pid, wmsg) :: rest =>
    match wmsg with
    | .WsStartMsg =>
      match dictGet st.players pid with
      | none => none
      | some _ =>
        let st' := { st with
            player_tasks := dictSet st.player_tasks pid st.next_task_id,
            next_task_id := st.next_task_id + 1 }
        match collectPlayers st' rest with
        | none => none
        | some (stf, msgs, evts) => some (stf, .StartRoundEngMsg pid :: msgs, evts)
    | .WsActionMsg a =>
      match dictGet st.players pid with
      | none => none
      | some _ =>
        let st' := { st with
            player_tasks := dictSet st.player_tasks pid st.next_task_id,
            next_task_id := st.next_task_id + 1 }
        match collectPlayers st' rest with
        | none => none
        | some (stf, msgs, evts) => some (stf, .PlayerActionEngMsg pid a :: msgs, evts)
    | _ =>
      match dictGet st.players pid with
      | none => none
      | some _ =>
        match collectPlayers st rest with
        | none => none
        | some (stf, msgs, evts) =>
          some (stf, .PlayerLeaveEngMsg pid :: msgs, Event.closeConn pid :: evts)

/-- The collect phase of one iteration, engine.py lines 503-549: the queue
part first (an intro registers a pending joiner and a join message, anything
else closes the anonymous connection; the queue receive is re-created), then
the per-player part. -/
def collect (st : EngineState) (inp : IterationInput) :
    Option (EngineState × List EngMsg × List Event) :=
  let (st1, qmsgs) :=
    match inp.queue_msg with
    | none => (st, ([] : List EngMsg))
    | some (.WsIntroMsg name) =>
      let pid := st.next_player_id
      ({ st with
          next_player_id := pid + 1,
          new_joins := dictSet st.new_joins pid ⟨pid, name, []⟩,
          queue_task := st.next_task_id,
          next_task_id := st.next_task_id + 1 },
        [.PlayerJoinEngMsg pid name])
    | some _ =>
      ({ st with queue_task := st.next_task_id, next_task_id := st.next_task_id + 1 },
        ([] : List EngMsg))
  match collectPlayers st1 inp.player_msgs with
  | none => none
  | some (st2, pmsgs, evts) => some (st2, qmsgs ++ pmsgs, evts)

/-- Rebuilding the wait tuple at the end of an iteration, engine.py line 679. -/
def rebuildAws (st : EngineState) : EngineState :=
  { st with aws := st.queue_task :: st.player_tasks.map Prod.snd }

/-- One whole loop iteration: collect, drain the batch, rebuild the wait
tuple.  Returns the outcome together with the extended module call log. -/
def runIteration (mod : ModuleFun) (log : List EngMsg) (st : EngineState)
    (inp : IterationInput) : BatchResult × List EngMsg :=
  match collect st inp with
  | none => (.crash [], log)
  | some (st1, msgs, evts0) =>
    match processBatch mod log st1 msgs evts0 with
    | (.continues st2 evts, log') => (.continues (rebuildAws st2) evts, log')
    | other => other

/-- Outcome of an engine run over a list of iteration inputs: torn down at
the init probe (engine.py lines 479-481), still waiting, returned normally,
or crashed.  Every constructor carries the module call log. -/
inductive RunResult where
  | torndown (calls : List EngMsg) : RunResult
  | running (st : EngineState) (calls : List EngMsg) (evts : List Event) : RunResult
  | exited (calls : List EngMsg) (evts : List Event) : RunResult
  | crashed (calls : List EngMsg) (evts : List Event) : RunResult

/-- The module call log of a run outcome. -/
def RunResult.callLog : RunResult → List EngMsg
  | .torndown l => l
  | .running _ l _ => l
  | .exited l _ => l
  | .crashed l _ => l

/-- The engine state when the run is still inside its loop. -/
def RunResult.continuing : RunResult → Option EngineState
  | .running st _ _ => some st
  | _ => none

/-- The initial engine state after a successful init probe, engine.py lines
483-493: no round, no players, the queue receive (task 0) alone in the wait
tuple. -/
def initialState (game_id : Nat) (j s : Mode) : EngineState :=
  { game_id := game_id, join_mode := j, start_mode := s, round_active := false,
    next_player_id := 0, new_joins := [], players := [], player_tasks := [],
    queue_task := 0, next_task_id := 1, aws := [0] }

/-- The decision at engine.py lines 479-481: tear down unless the init probe
returned a ChangeStateModMsg whose join mode is Open. -/
def engineInit (response : ModMsg) : Option (Mode × Mode) :=
  match response with
  | .ChangeStateModMsg j s =>
    match j with
    | .Closed _ => none
    | .Open => some (j, s)
  | _ => none

/-- The engine loop folded over iteration inputs, accumulating events. -/
def runLoop (mod : ModuleFun) (log : List EngMsg) (st : EngineState)
    (inputs : List IterationInput) (acc : List Event) : RunResult :=
  match inputs with
  | [] => .running st log acc
  | inp :: rest =>
    match runIteration mod log st inp with
    | (.continues st' evts, log') => runLoop mod log' st' rest (acc ++ evts)
    | (.exitEngine evts, log') => .exited log' (acc ++ evts)
    | (.crash evts, log') => .crashed log' (acc ++ evts)

/-- A whole engine run, engine.py lines 463-679: the init probe is the first
and only InitEngMsg call; on rejection the engine deregisters before
admitting any player, otherwise the returned modes are installed and the
loop runs. -/
def engineRun (mod : ModuleFun) (game_id : Nat) (inputs : List IterationInput) : RunResult :=
  match engineInit (mod [.InitEngMsg]) with
  | none => .torndown [.InitEngMsg]
  | some (j, s) => runLoop mod [.InitEngMsg] (initialState game_id j s) inputs []

/-- A module that opens joining and starting at the init probe and then
always answers with the same state change. -/
def initOpenModule : ModuleFun := fun _ => .ChangeStateModMsg .Open .Open

/-- A minimal JSON value model for the wire payloads of WsWrapper. -/
inductive Json where
  | null : Json
  | str (s : String) : Json
  | int (n : Int) : Json
  | obj (fields : List (String × Json)) : Json
deriving Repr

/-- Field lookup in a JSON object. -/
def Json.get (j : Json) (k : String) : Option Json :=
  match j with
  | .obj fields =>
    match fields.find? (fun f => f.1 = k) with
    | some f => some f.2
    | none => none
  | _ => none

/-- The payload of WsWrapper.send_intro, engine.py lines 156-160, with the
exact field names of the source. -/
def send_intro_payload (game_id player_id : Int) : Json :=
  .obj [("type", .str "intro"), ("game_id", .int game_id), ("player_id", .int player_id)]

/-- Whether an engine message is the init probe. -/
def EngMsg.isInit : EngMsg → Bool
  | .InitEngMsg => true
  | _ => false

/-- The events of a pre-handling outcome. -/
def PreResult.events : PreResult → List Event
  | .skip _ e => e
  | .dispatch _ e => e
  | .exitEngine e => e
  | .crash e => e

/-- The state of a pre-handling outcome that keeps the engine alive. -/
def PreResult.state : PreResult → Option EngineState
  | .skip st _ => some st
  | .dispatch st _ => some st
  | _ => none

/-- The events of a batch outcome. -/
def BatchResult.events : BatchResult → List Event
  | .continues _ e => e
  | .exitEngine e => e
  | .crash e => e

theorem dictGet_dictSet_self {α : Type} (m : List (Nat × α)) (k : Nat) (v : α) :
    dictGet (dictSet m k v) k = some v := by
  induction m with
  | nil => simp [dictGet, dictSet]
  | cons h t ih =>
    obtain ⟨k', v'⟩ := h
    by_cases hk : k' = k <;> simp [dictGet, dictSet, hk, ih]

theorem dictGet_dictSet_ne {α : Type} (m : List (Nat × α)) (k k' : Nat) (v : α)
    (h : k ≠ k') : dictGet (dictSet m k v) k' = dictGet m k' := by
  induction m with
  | nil => simp [dictGet, dictSet, h]
  | cons hd t ih =>
    obtain ⟨k₀, v₀⟩ := hd
    by_cases hk : k₀ = k
    · subst hk
      simp [dictGet, dictSet, h]
    · simp only [dictSet, if_neg hk]
      by_cases hk' : k₀ = k' <;> simp [dictGet, hk', ih]

theorem dictSet_ne_nil {α : Type} (m : List (Nat × α)) (k : Nat) (v : α) :
    dictSet m k v ≠ [] := by
  cases m with
  | nil => simp [dictSet]
  | cons h t =>
    obtain ⟨k', v'⟩ := h
    by_cases hk : k' = k <;> simp [dictSet, hk]

theorem dictGet_isSome_dictSet {α : Type} (m : List (Nat × α)) (k k' : Nat) (v : α)
    (h : (dictGet m k').isSome) : (dictGet (dictSet m k v) k').isSome := by
  by_cases hk : k = k'
  · subst hk; simp [dictGet_dictSet_self]
  · rwa [dictGet_dictSet_ne m k k' v hk]

/-- The acceptance relation of spec section 4.4, stated in the words of the
claim: next matches any next possibility; select-card(c) matches some
select-card(C) with c in C; select-collection likewise; against-card(s, a)
matches some against-card(S, A) with s = S and a in A; wild-card(c, t)
matches some wild-card(C, T) with c = C and t in T. -/
def specAccepts (pas : List PossibleAction) (a : Action) : Prop :=
  match a with
  | .NextAction => PossibleAction.NextPossibleAction ∈ pas
  | .SelectCardAction c =>
    ∃ cs, PossibleAction.SelectCardPossibleAction cs ∈ pas ∧ c ∈ cs
  | .SelectCollectionAction c =>
    ∃ cs, PossibleAction.SelectCollectionPossibleAction cs ∈ pas ∧ c ∈ cs
  | .AgainstCardAction s a' =>
    ∃ as_, PossibleAction.AgainstCardPossibleAction s as_ ∈ pas ∧ a' ∈ as_
  | .WildCardAction c t =>
    ∃ ts, PossibleAction.WildCardPossibleAction c ts ∈ pas ∧ t ∈ ts

theorem matchesAction_next_iff (pa : PossibleAction) :
    matchesAction .NextAction pa = true ↔ pa = .NextPossibleAction := by
  cases pa <;> simp [matchesAction]

theorem matchesAction_selectCard_iff (c : Int) (pa : PossibleAction) :
    matchesAction (.SelectCardAction c) pa = true
      ↔ ∃ cs, pa = .SelectCardPossibleAction cs ∧ c ∈ cs := by
  cases pa <;> simp [matchesAction]

theorem matchesAction_selectCollection_iff (c : Int) (pa : PossibleAction) :
    matchesAction (.SelectCollectionAction c) pa = true
      ↔ ∃ cs, pa = .SelectCollectionPossibleAction cs ∧ c ∈ cs := by
  cases pa <;> simp [matchesAction]

theorem matchesAction_againstCard_iff (s a : Int) (pa : PossibleAction) :
    matchesAction (.AgainstCardAction s a) pa = true
      ↔ ∃ as_, pa = .AgainstCardPossibleAction s as_ ∧ a ∈ as_ := by
  cases pa with
  | AgainstCardPossibleAction s' as_ =>
    simp only [matchesAction, Bool.and_eq_true, beq_iff_eq, List.contains, List.elem_iff]
    constructor
    · rintro ⟨rfl, h⟩; exact ⟨as_, rfl, h⟩
    · rintro ⟨bs, heq, h⟩
      cases heq
      exact ⟨rfl, h⟩
  | NextPossibleAction => simp [matchesAction]
  | SelectCardPossibleAction cs => simp [matchesAction]
  | SelectCollectionPossibleAction cs => simp [matchesAction]
  | WildCardPossibleAction c' ts => simp [matchesAction]

theorem matchesAction_wildCard_iff (c t : Int) (pa : PossibleAction) :
    matchesAction (.WildCardAction c t) pa = true
      ↔ ∃ ts, pa = .WildCardPossibleAction c ts ∧ t ∈ ts := by
  cases pa with
  | WildCardPossibleAction c' ts =>
    simp only [matchesAction, Bool.and_eq_true, beq_iff_eq, List.contains, List.elem_iff]
    constructor
    · rintro ⟨rfl, h⟩; exact ⟨ts, rfl, h⟩
    · rintro ⟨bs, heq, h⟩
      cases heq
      exact ⟨rfl, h⟩
  | NextPossibleAction => simp [matchesAction]
  | SelectCardPossibleAction cs => simp [matchesAction]
  | SelectCollectionPossibleAction cs => simp [matchesAction]
  | AgainstCardPossibleAction s' as_ => simp [matchesAction]

/-- The linear scan of engine.py lines 599-639 computes exactly the
acceptance relation of spec section 4.4. -/
theorem can_perform_iff (pas : List PossibleAction) (a : Action) :
    can_perform pas a = true ↔ specAccepts pas a := by
  unfold can_perform
  rw [List.any_eq_true]
  cases a with
  | NextAction =>
    simp only [matchesAction_next_iff, specAccepts]
    constructor
    · rintro ⟨pa, hmem, rfl⟩; exact hmem
    · intro h; exact ⟨_, h, rfl⟩
  | SelectCardAction c =>
    simp only [matchesAction_selectCard_iff, specAccepts]
    constructor
    · rintro ⟨pa, hmem, cs, rfl, hc⟩; exact ⟨cs, hmem, hc⟩
    · rintro ⟨cs, hmem, hc⟩; exact ⟨_, hmem, cs, rfl, hc⟩
  | SelectCollectionAction c =>
    simp only [matchesAction_selectCollection_iff, specAccepts]
    constructor
    · rintro ⟨pa, hmem, cs, rfl, hc⟩; exact ⟨cs, hmem, hc⟩
    · rintro ⟨cs, hmem, hc⟩; exact ⟨_, hmem, cs, rfl, hc⟩
  | AgainstCardAction s a' =>
    simp only [matchesAction_againstCard_iff, specAccepts]
    constructor
    · rintro ⟨pa, hmem, as_, rfl, hc⟩; exact ⟨as_, hmem, hc⟩
    · rintro ⟨as_, hmem, hc⟩; exact ⟨_, hmem, as_, rfl, hc⟩
  | WildCardAction c t =>
    simp only [matchesAction_wildCard_iff, specAccepts]
    constructor
    · rintro ⟨pa, hmem, ts, rfl, hc⟩; exact ⟨ts, hmem, hc⟩
    · rintro ⟨ts, hmem, hc⟩; exact ⟨_, hmem, ts, rfl, hc⟩

theorem mem_events_processGractLists (e : Event) :
    ∀ (ls : List (Nat × List Gract)) (st : EngineState) (evts : List Event),
      e ∈ evts → e ∈ (processGractLists st ls evts).events := by
  intro ls
  induction ls with
  | nil =>
    intro st evts h
    simpa [processGractLists, StepResult.events] using h
  | cons hd rest ih =>
    intro st evts h
    obtain ⟨pid, gl⟩ := hd
    unfold processGractLists
    cases hcase : dictGet st.players pid with
    | none => simpa [StepResult.events] using h
    | some p => exact ih _ _ (List.mem_append_left _ h)

theorem mem_events_interpretResponse (e : Event) (st : EngineState) (resp : ModMsg)
    (evts : List Event) (h : e ∈ evts) :
    e ∈ (interpretResponse st resp evts).events := by
  cases resp with
  | ChangeStateModMsg j s => simpa [interpretResponse, StepResult.events] using h
  | EndRoundModMsg r =>
    simp only [interpretResponse, StepResult.events]
    exact List.mem_append_left _ h
  | EndGameModMsg r =>
    simp only [interpretResponse, StepResult.events]
    exact List.mem_append_left _ (List.mem_append_left _ (List.mem_append_left _ h))
  | GractModMsg ls => exact mem_events_processGractLists e ls st evts h
  | EmptyModMsg => simpa [interpretResponse, StepResult.events] using h

/-- C1: while round_active is true, a PlayerActionEngMsg is dispatched to the
module if and only if the player current possibility list contains a
matching possibility in the sense of spec section 4.4 (specAccepts); on a
match the step is exactly the module call followed by response
interpretation, and on a mismatch the engine sends an error frame reading
invalid action to that player, closes that player connection, changes no
state, and does not call the module. -/
theorem c1_action_validation (st : EngineState) (pid : Nat) (player : Player)
    (a : Action) (resp : ModMsg)
    (hactive : st.round_active = true)
    (hp : dictGet st.players pid = some player) :
    (specAccepts player.possible_actions a →
        processMsg st (.PlayerActionEngMsg pid a) resp
          = interpretResponse st resp [Event.moduleCall (.PlayerActionEngMsg pid a)])
      ∧ (¬ specAccepts player.possible_actions a →
        processMsg st (.PlayerActionEngMsg pid a) resp
          = .next st [Event.send pid (.error "invalid action"), Event.closeConn pid])
      ∧ (moduleCalled (processMsg st (.PlayerActionEngMsg pid a) resp)
            (.PlayerActionEngMsg pid a)
          ↔ specAccepts player.possible_actions a) := by
  have hdisp : can_perform player.possible_actions a = true →
      processMsg st (.PlayerActionEngMsg pid a) resp
        = interpretResponse st resp [Event.moduleCall (.PlayerActionEngMsg pid a)] := by
    intro hcan
    simp [processMsg, preProcess, hactive, hp, hcan]
  have hskip : can_perform player.possible_actions a = false →
      processMsg st (.PlayerActionEngMsg pid a) resp
        = .next st [Event.send pid (.error "invalid action"), Event.closeConn pid] := by
    intro hcan
    simp [processMsg, preProcess, hactive, hp, hcan]
  refine ⟨?_, ?_, ?_⟩
  · intro hacc
    exact hdisp ((can_perform_iff _ _).mpr hacc)
  · intro hacc
    refine hskip ?_
    cases h : can_perform player.possible_actions a
    · rfl
    · exact absurd ((can_perform_iff _ _).mp h) hacc
  · by_cases hacc : specAccepts player.possible_actions a
    · simp only [hacc, iff_true]
      rw [hdisp ((can_perform_iff _ _).mpr hacc)]
      exact mem_events_interpretResponse _ _ _ _ (by simp)
    · have hcanf : can_perform player.possible_actions a = false := by
        cases h : can_perform player.possible_actions a
        · rfl
        · exact absurd ((can_perform_iff _ _).mp h) hacc
      simp only [hacc, iff_false]
      intro hmc
      rw [hskip hcanf] at hmc
      simp [moduleCalled, StepResult.events] at hmc

/-- A run reaching the witness configuration of C1: one admitted player with
a select-card possibility, round active. -/
def c1_state : EngineState :=
  { game_id := 0, join_mode := .Open, start_mode := .Open, round_active := true,
    next_player_id := 1, new_joins := [],
    players := [(0, ⟨0, "zachary", [.SelectCardPossibleAction [3, 4]]⟩)],
    player_tasks := [(0, 2)], queue_task := 1, next_task_id := 3, aws := [1, 2] }

theorem c1_witness :
    c1_state.round_active = true
      ∧ dictGet c1_state.players 0 = some ⟨0, "zachary", [.SelectCardPossibleAction [3, 4]]⟩
      ∧ (¬ specAccepts [PossibleAction.SelectCardPossibleAction [3, 4]] (.SelectCardAction 9) →
          processMsg c1_state (.PlayerActionEngMsg 0 (.SelectCardAction 9)) .EmptyModMsg
            = .next c1_state
                [Event.send 0 (.error "invalid action"), Event.closeConn 0]) :=
  ⟨rfl, rfl, (c1_action_validation c1_state 0 _ (.SelectCardAction 9) .EmptyModMsg rfl rfl).2.1⟩

/-- A reachable state with one admitted player, an active round, and an Open
start mode: the module answered the first StartRound with a gract bundle and
never closed starting. -/
def c2_state : EngineState :=
  { game_id := 0, join_mode := .Open, start_mode := .Open, round_active := true,
    next_player_id := 1, new_joins := [],
    players := [(0, ⟨0, "zachary", []⟩)],
    player_tasks := [(0, 2)], queue_task := 1, next_task_id := 3, aws := [1, 2] }

/-- C2: the claim fails in the reachable state where round_active is true
while start_mode is Open: engine.py line 583 evaluates start_mode.reason,
which an Open mode does not have, so the step raises an AttributeError
(modelled as crash) without sending any frame, instead of sending an error
frame to the requesting player. -/
theorem c2_start_round_open_crash :
    processMsg c2_state (.StartRoundEngMsg 0) .EmptyModMsg = .crash []
      ∧ (processMsg c2_state (.StartRoundEngMsg 0) .EmptyModMsg).events = [] :=
  ⟨rfl, rfl⟩

/-- A reachable state with one admitted player holding a next possibility
during an active round. -/
def c3_state : EngineState :=
  { game_id := 0, join_mode := .Open, start_mode := .Open, round_active := true,
    next_player_id := 1, new_joins := [],
    players := [(0, ⟨0, "zachary", [.NextPossibleAction]⟩)],
    player_tasks := [(0, 2)], queue_task := 1, next_task_id := 3, aws := [1, 2] }

/-- C3 counterexample: an accepted action (the module call event is present)
leaves the engine state, including the player possibility list, completely
unchanged when the module returns empty; the identical follow-up action is
therefore validated against the same list again, contradicting the claimed
invalidation. -/
theorem c3_counterexample :
    processMsg c3_state (.PlayerActionEngMsg 0 .NextAction) .EmptyModMsg
        = .next c3_state [Event.moduleCall (.PlayerActionEngMsg 0 .NextAction)]
      ∧ (dictGet c3_state.players 0).map Player.possible_actions
          = some [PossibleAction.NextPossibleAction] :=
  ⟨rfl, rfl⟩

/-- C3 amended: acceptance does not invalidate the possibility list.  When
an accepted action draws an empty module response, the whole state is
unchanged, so the same player may immediately submit another action matching
the same list and it is dispatched again; the list is replaced only when the
module installs a new possible-actions entry. -/
theorem c3_no_invalidation (st : EngineState) (pid : Nat) (player : Player)
    (a : Action)
    (hactive : st.round_active = true)
    (hp : dictGet st.players pid = some player)
    (hcan : can_perform player.possible_actions a = true) :
    processMsg st (.PlayerActionEngMsg pid a) .EmptyModMsg
        = .next st [Event.moduleCall (.PlayerActionEngMsg pid a)]
      ∧ moduleCalled (processMsg st (.PlayerActionEngMsg pid a) .EmptyModMsg)
          (.PlayerActionEngMsg pid a) := by
  have h : processMsg st (.PlayerActionEngMsg pid a) .EmptyModMsg
      = .next st [Event.moduleCall (.PlayerActionEngMsg pid a)] := by
    simp [processMsg, preProcess, hactive, hp, hcan, interpretResponse]
  refine ⟨h, ?_⟩
  rw [h]
  simp [moduleCalled, StepResult.events]

theorem c3_witness :
    c3_state.round_active = true
      ∧ dictGet c3_state.players 0 = some ⟨0, "zachary", [.NextPossibleAction]⟩
      ∧ can_perform [PossibleAction.NextPossibleAction] .NextAction = true
      ∧ processMsg c3_state (.PlayerActionEngMsg 0 .NextAction) .EmptyModMsg
          = .next c3_state [Event.moduleCall (.PlayerActionEngMsg 0 .NextAction)] :=
  ⟨rfl, rfl, rfl, (c3_no_invalidation c3_state 0 _ .NextAction rfl rfl rfl).1⟩

/-- C8: the intro frame sent on admission does not carry the hyphenated
field names the wire format prescribes: the payload has no game-id or
player-id field and instead uses game_id and player_id with underscores
(engine.py lines 156-160, contradicted by the expectations at
src/tests/test_engine.py lines 121-125). -/
theorem c8_intro_field_names :
    (send_intro_payload 0 0).get "game-id" = none
      ∧ (send_intro_payload 0 0).get "player-id" = none
      ∧ (send_intro_payload 0 0).get "game_id" = some (.int 0)
      ∧ (send_intro_payload 0 0).get "player_id" = some (.int 0) :=
  ⟨rfl, rfl, rfl, rfl⟩

/-- A reachable state with two admitted players, used by C9 and C10. -/
def c9_state : EngineState :=
  { game_id := 0, join_mode := .Open, start_mode := .Open, round_active := false,
    next_player_id := 2, new_joins := [],
    players := [(0, ⟨0, "zachary", []⟩), (1, ⟨1, "jed", []⟩)],
    player_tasks := [(0, 2), (1, 3)], queue_task := 1, next_task_id := 4, aws := [1, 2, 3] }

/-- C9 counterexample: player 1 leaves and the player-leave hook returns a
bundle whose entry targets the departed player 1; the engine raises a
KeyError at engine.py line 670 (modelled as crash) instead of dropping the
entry silently. -/
theorem c9_counterexample :
    processMsg c9_state (.PlayerLeaveEngMsg 1)
        (.GractModMsg [(1, [Gract.PossibleActionsGract []])])
      = .crash [Event.moduleCall (.PlayerLeaveEngMsg 1)] := by
  decide

/-- C9 amended: a gract-list entry whose player id is not in the players map
is not dropped: the lookup players[player_id] fails and the engine crashes
at that point, emitting no further events. -/
theorem c9_unknown_target_crash (st : EngineState) (pid : Nat) (gl : List Gract)
    (rest : List (Nat × List Gract)) (evts : List Event)
    (h : dictGet st.players pid = none) :
    processGractLists st ((pid, gl) :: rest) evts = .crash evts := by
  simp [processGractLists, h]

theorem c9_witness :
    dictGet c9_state.players 5 = none
      ∧ processGractLists c9_state [(5, [])] [] = .crash [] :=
  ⟨rfl, c9_unknown_target_crash c9_state 5 [] [] [] rfl⟩

/-- C10: a well-formed action frame processed while round_active is false is
discarded silently: the state is unchanged and no event at all is produced,
so no module call, no frame, and no connection close. -/
theorem c10_inactive_action_discarded (st : EngineState) (pid : Nat) (a : Action)
    (resp : ModMsg) (h : st.round_active = false) :
    processMsg st (.PlayerActionEngMsg pid a) resp = .next st [] := by
  simp [processMsg, preProcess, h]

theorem c10_witness :
    c9_state.round_active = false
      ∧ processMsg c9_state (.PlayerActionEngMsg 0 .NextAction) .EmptyModMsg
          = .next c9_state [] :=
  ⟨rfl, c10_inactive_action_discarded c9_state 0 .NextAction .EmptyModMsg rfl⟩

theorem foldl_poss_some (gl : List Gract) :
    ∀ (v d : List PossibleAction),
      (gl.foldl
        (fun acc g =>
          match g with
          | .PossibleActionsGract pas => some pas
          | _ => acc)
        (some v)).getD d
      = (gl.foldl
          (fun acc g =>
            match g with
            | .PossibleActionsGract pas => some pas
            | _ => acc)
          none).getD v := by
  induction gl with
  | nil => intro v d; rfl
  | cons g rest ih =>
    intro v d
    cases g with
    | PossibleActionsGract pas =>
      simp only [List.foldl_cons]
      rw [ih pas d, ih pas v]
    | ShowTypeGract a b c e => simpa using ih v d
    | ShowCollectionGract a b c => simpa using ih v d
    | HideCollectionGract a => simpa using ih v d
    | ShowCardGract a b c => simpa using ih v d
    | MoveCardGract a b => simpa using ih v d
    | RevealCardGract a b c => simpa using ih v d
    | ConcealCardGract a b c => simpa using ih v d
    | HideCardGract a => simpa using ih v d

/-- Replaying a gract list over a player record ends with the possibility
list of the last possible-actions entry, or the original list when the gract
list has none. -/
theorem applyPossActions_possible_actions (gl : List Gract) :
    ∀ p : Player, (applyPossActions p gl).possible_actions
      = (lastPossActions gl).getD p.possible_actions := by
  induction gl with
  | nil => intro p; rfl
  | cons g rest ih =>
    intro p
    cases g with
    | PossibleActionsGract pas =>
      show (applyPossActions { p with possible_actions := pas } rest).possible_actions = _
      rw [ih]
      show _ = (rest.foldl _ (some pas)).getD p.possible_actions
      rw [foldl_poss_some rest pas p.possible_actions]
      rfl
    | ShowTypeGract a b c e => exact ih p
    | ShowCollectionGract a b c => exact ih p
    | HideCollectionGract a => exact ih p
    | ShowCardGract a b c => exact ih p
    | MoveCardGract a b => exact ih p
    | RevealCardGract a b c => exact ih p
    | ConcealCardGract a b c => exact ih p
    | HideCardGract a => exact ih p

/-- Full characterisation of processGractLists when every targeted player is
present and the targets are pairwise distinct: the step continues, the
emitted events are exactly one gract-list frame per pair in order, untargeted
players are untouched, and each targeted player record is the fold of its
gract list. -/
theorem processGractLists_spec :
    ∀ (ls : List (Nat × List Gract)) (st : EngineState) (evts : List Event),
      (∀ pr ∈ ls, (dictGet st.players pr.1).isSome) →
      (ls.map Prod.fst).Nodup →
      ∃ st', processGractLists st ls evts
          = .next st' (evts ++ ls.map (fun pr => Event.send pr.1 (.gractList pr.2)))
        ∧ (∀ k, k ∉ ls.map Prod.fst → dictGet st'.players k = dictGet st.players k)
        ∧ (∀ pr ∈ ls, ∃ p, dictGet st.players pr.1 = some p
            ∧ dictGet st'.players pr.1 = some (applyPossActions p pr.2)) := by
  intro ls
  induction ls with
  | nil =>
    intro st evts _ _
    exact ⟨st, by simp [processGractLists], fun k _ => rfl, by simp⟩
  | cons hd rest ih =>
    intro st evts hpresent hnodup
    obtain ⟨pid, gl⟩ := hd
    obtain ⟨p, hp⟩ := Option.isSome_iff_exists.mp (hpresent (pid, gl) (by simp))
    simp only [List.map_cons, List.nodup_cons] at hnodup
    obtain ⟨hpid_not, hnodup'⟩ := hnodup
    have hpresent' : ∀ pr ∈ rest,
        (dictGet (dictSet st.players pid (applyPossActions p gl)) pr.1).isSome := by
      intro pr hmem
      exact dictGet_isSome_dictSet _ _ _ _ (hpresent pr (by simp [hmem]))
    obtain ⟨st', heq, hother, hupd⟩ :=
      ih { st with players := dictSet st.players pid (applyPossActions p gl) }
        (evts ++ [Event.send pid (.gractList gl)]) hpresent' hnodup'
    have hstep : processGractLists st ((pid, gl) :: rest) evts
        = processGractLists
            { st with players := dictSet st.players pid (applyPossActions p gl) }
            rest (evts ++ [Event.send pid (Frame.gractList gl)]) := by
      have hp' : dictGet st.players pid = some p := hp
      conv_lhs => rw [processGractLists.eq_def]
      simp only [hp']
    refine ⟨st', ?_, ?_, ?_⟩
    · rw [hstep, heq]
      simp
    · intro k hk
      simp only [List.map_cons, List.mem_cons] at hk
      push_neg at hk
      rw [hother k hk.2]
      exact dictGet_dictSet_ne _ _ _ _ (Ne.symm hk.1)
    · intro pr hmem
      rcases List.mem_cons.mp hmem with heq' | hmem'
      · subst heq'
        refine ⟨p, hp, ?_⟩
        rw [hother pid hpid_not]
        exact dictGet_dictSet_self _ _ _
      · obtain ⟨q, hq1, hq2⟩ := hupd pr hmem'
        have hne : pid ≠ pr.1 := by
          intro hcontra
          exact hpid_not (hcontra ▸ List.mem_map_of_mem Prod.fst hmem')
        refine ⟨q, ?_, hq2⟩
        rw [← hq1]
        exact (dictGet_dictSet_ne _ _ _ _ hne).symm

/-- C4: interpreting a gract bundle whose targets are distinct and admitted
emits, for each pair, the whole gract list as one gract-list frame to that
player, and leaves each targeted player possibility set equal to the last
possible-actions entry of its list (a later entry replaces an earlier one
within the same list). -/
theorem c4_gract_interpretation (st : EngineState) (ls : List (Nat × List Gract))
    (hnodup : (ls.map Prod.fst).Nodup)
    (hpresent : ∀ pr ∈ ls, (dictGet st.players pr.1).isSome) :
    ∃ st', interpretResponse st (.GractModMsg ls) []
        = .next st' (ls.map (fun pr => Event.send pr.1 (.gractList pr.2)))
      ∧ ∀ pr ∈ ls, ∀ pas, lastPossActions pr.2 = some pas →
          ∃ p', dictGet st'.players pr.1 = some p' ∧ p'.possible_actions = pas := by
  obtain ⟨st', heq, _, hupd⟩ := processGractLists_spec ls st [] hpresent hnodup
  refine ⟨st', by simpa [interpretResponse] using heq, ?_⟩
  intro pr hmem pas hlast
  obtain ⟨p, _, hp'⟩ := hupd pr hmem
  refine ⟨applyPossActions p pr.2, hp', ?_⟩
  rw [applyPossActions_possible_actions, hlast]
  rfl

/-- The witness configuration of C4, following scenario S6: one admitted
player receiving a list with two possible-actions entries. -/
def c4_state : EngineState :=
  { game_id := 0, join_mode := .Open, start_mode := .Open, round_active := true,
    next_player_id := 1, new_joins := [],
    players := [(0, ⟨0, "zachary", []⟩)],
    player_tasks := [(0, 2)], queue_task := 1, next_task_id := 3, aws := [1, 2] }

def c4_bundle : List (Nat × List Gract) :=
  [(0, [Gract.PossibleActionsGract [.NextPossibleAction],
        Gract.PossibleActionsGract [.SelectCardPossibleAction [7]]])]

theorem preProcess_no_cancel (st : EngineState) (m : EngMsg) (t : Nat) :
    Event.cancelTask t ∉ (preProcess st m).events := by
  cases m with
  | InitEngMsg => simp [preProcess, PreResult.events]
  | PlayerJoinEngMsg pid name =>
    cases hj : st.join_mode <;> cases hn : dictGet st.new_joins pid <;>
      simp [preProcess, hj, hn, PreResult.events]
  | PlayerLeaveEngMsg pid =>
    cases hp : dictGet st.players pid <;> cases ht : dictGet st.player_tasks pid <;>
      by_cases hdel : dictDel st.players pid = [] <;>
      simp [preProcess, hp, ht, hdel, PreResult.events]
  | StartRoundEngMsg pid =>
    cases hra : st.round_active <;> cases hsm : st.start_mode <;>
      cases hp : dictGet st.players pid <;>
      simp [preProcess, hra, hsm, hp, PreResult.events]
  | EndRoundEngMsg =>
    cases hra : st.round_active <;> simp [preProcess, hra, PreResult.events]
  | PlayerActionEngMsg pid a =>
    cases hra : st.round_active with
    | false => simp [preProcess, hra, PreResult.events]
    | true =>
      cases hp : dictGet st.players pid with
      | none => simp [preProcess, hra, hp, PreResult.events]
      | some p =>
        by_cases hcan : can_perform p.possible_actions a = true <;>
          simp [preProcess, hra, hp, hcan, PreResult.events]

theorem preProcess_state_cases (st : EngineState) (m : EngMsg) (st' : EngineState)
    (h : (preProcess st m).state = some st') :
    st'.aws = st.aws ∧ (st.players ≠ [] → st'.players ≠ []) := by
  cases m with
  | InitEngMsg =>
    simp [preProcess, PreResult.state] at h
    subst h
    exact ⟨rfl, fun hne => hne⟩
  | PlayerJoinEngMsg pid name =>
    cases hj : st.join_mode with
    | Open =>
      cases hn : dictGet st.new_joins pid with
      | none => simp [preProcess, hj, hn, PreResult.state] at h
      | some jp =>
        simp [preProcess, hj, hn, PreResult.state] at h
        subst h
        exact ⟨rfl, fun _ => dictSet_ne_nil _ _ _⟩
    | Closed reason =>
      cases hn : dictGet st.new_joins pid with
      | none => simp [preProcess, hj, hn, PreResult.state] at h
      | some jp =>
        simp [preProcess, hj, hn, PreResult.state] at h
        subst h
        exact ⟨rfl, fun hne => hne⟩
  | PlayerLeaveEngMsg pid =>
    cases hp : dictGet st.players pid with
    | none => simp [preProcess, hp, PreResult.state] at h
    | some p =>
      cases ht : dictGet st.player_tasks pid with
      | none => simp [preProcess, hp, ht, PreResult.state] at h
      | some tk =>
        by_cases hdel : dictDel st.players pid = []
        · simp [preProcess, hp, ht, hdel, PreResult.state] at h
        · simp [preProcess, hp, ht, hdel, PreResult.state] at h
          subst h
          exact ⟨rfl, fun _ => hdel⟩
  | StartRoundEngMsg pid =>
    cases hra : st.round_active with
    | true =>
      cases hp : dictGet st.players pid with
      | none => simp [preProcess, hra, hp, PreResult.state] at h
      | some p =>
        cases hsm : st.start_mode with
        | Open => simp [preProcess, hra, hp, hsm, PreResult.state] at h
        | Closed reason =>
          simp [preProcess, hra, hp, hsm, PreResult.state] at h
          subst h
          exact ⟨rfl, fun hne => hne⟩
    | false =>
      cases hsm : st.start_mode with
      | Open =>
        simp [preProcess, hra, hsm, PreResult.state] at h
        subst h
        exact ⟨rfl, fun hne => hne⟩
      | Closed reason =>
        cases hp : dictGet st.players pid with
        | none => simp [preProcess, hra, hsm, hp, PreResult.state] at h
        | some p =>
          simp [preProcess, hra, hsm, hp, PreResult.state] at h
          subst h
          exact ⟨rfl, fun hne => hne⟩
  | EndRoundEngMsg =>
    cases hra : st.round_active <;>
      simp [preProcess, hra, PreResult.state] at h <;>
      subst h <;>
      exact ⟨rfl, fun hne => hne⟩
  | PlayerActionEngMsg pid a =>
    cases hra : st.round_active with
    | false =>
      simp [preProcess, hra, PreResult.state] at h
      subst h
      exact ⟨rfl, fun hne => hne⟩
    | true =>
      cases hp : dictGet st.players pid with
      | none => simp [preProcess, hra, hp, PreResult.state] at h
      | some p =>
        by_cases hcan : can_perform p.possible_actions a = true
        · simp [preProcess, hra, hp, hcan, PreResult.state] at h
          subst h
          exact ⟨rfl, fun hne => hne⟩
        · simp [preProcess, hra, hp, hcan, PreResult.state] at h
          subst h
          exact ⟨rfl, fun hne => hne⟩

theorem processGractLists_cons_none {st : EngineState} {evts : List Event} {pid : Nat}
    {gl : List Gract} {rest : List (Nat × List Gract)}
    (hp : dictGet st.players pid = none) :
    processGractLists st ((pid, gl) :: rest) evts = .crash evts := by
  conv_lhs => rw [processGractLists.eq_def]
  simp [hp]

theorem processGractLists_cons_some {st : EngineState} {evts : List Event} {pid : Nat}
    {gl : List Gract} {rest : List (Nat × List Gract)} {p : Player}
    (hp : dictGet st.players pid = some p) :
    processGractLists st ((pid, gl) :: rest) evts
      = processGractLists
          { st with players := dictSet st.players pid (applyPossActions p gl) }
          rest (evts ++ [Event.send pid (.gractList gl)]) := by
  conv_lhs => rw [processGractLists.eq_def]
  simp [hp]

theorem processGractLists_events_cancel :
    ∀ (ls : List (Nat × List Gract)) (st : EngineState) (evts : List Event) (t : Nat),
      Event.cancelTask t ∈ (processGractLists st ls evts).events →
      Event.cancelTask t ∈ evts := by
  intro ls
  induction ls with
  | nil =>
    intro st evts t h
    simpa [processGractLists, StepResult.events] using h
  | cons hd rest ih =>
    intro st evts t h
    obtain ⟨pid, gl⟩ := hd
    cases hp : dictGet st.players pid with
    | none =>
      rw [processGractLists_cons_none hp] at h
      simpa [StepResult.events] using h
    | some p =>
      rw [processGractLists_cons_some hp] at h
      rcases List.mem_append.mp (ih _ _ _ h) with h1 | h1
      · exact h1
      · simp at h1

theorem processGractLists_next_state :
    ∀ (ls : List (Nat × List Gract)) (st : EngineState) (evts : List Event)
      (st' : EngineState) (evts' : List Event),
      processGractLists st ls evts = .next st' evts' →
      st'.aws = st.aws ∧ (st.players ≠ [] → st'.players ≠ []) := by
  intro ls
  induction ls with
  | nil =>
    intro st evts st' evts' h
    simp only [processGractLists, StepResult.next.injEq] at h
    obtain ⟨rfl, -⟩ := h
    exact ⟨rfl, fun hne => hne⟩
  | cons hd rest ih =>
    intro st evts st' evts' h
    obtain ⟨pid, gl⟩ := hd
    cases hp : dictGet st.players pid with
    | none =>
      rw [processGractLists_cons_none hp] at h
      simp at h
    | some p =>
      rw [processGractLists_cons_some hp] at h
      obtain ⟨haws, hne⟩ := ih _ _ _ _ h
      exact ⟨haws, fun _ => hne (dictSet_ne_nil _ _ _)⟩

theorem interpretResponse_cancel (st : EngineState) (resp : ModMsg) (evts : List Event)
    (t : Nat)
    (h : Event.cancelTask t ∈ (interpretResponse st resp evts).events) :
    Event.cancelTask t ∈ evts ∨ t ∈ st.aws := by
  cases resp with
  | ChangeStateModMsg j s => exact Or.inl (by simpa [interpretResponse, StepResult.events] using h)
  | EmptyModMsg => exact Or.inl (by simpa [interpretResponse, StepResult.events] using h)
  | EndRoundModMsg r =>
    simp only [interpretResponse, StepResult.events] at h
    rcases List.mem_append.mp h with h1 | h1
    · exact Or.inl h1
    · exfalso
      rcases List.mem_map.mp h1 with ⟨pr, -, heq⟩
      simp at heq
  | EndGameModMsg r =>
    simp only [interpretResponse, StepResult.events, List.append_assoc] at h
    rcases List.mem_append.mp h with h1 | h1
    · exact Or.inl h1
    · rcases List.mem_append.mp h1 with h2 | h2
      · exfalso
        rcases List.mem_flatten.mp h2 with ⟨l, hl, hmem⟩
        rcases List.mem_map.mp hl with ⟨pr, -, heq⟩
        rw [← heq] at hmem
        simp at hmem
      · rcases List.mem_append.mp h2 with h3 | h3
        · right
          rcases List.mem_map.mp h3 with ⟨x, hx, heq⟩
          obtain rfl : x = t := by simpa using heq
          exact hx
        · simp at h3
  | GractModMsg ls => exact Or.inl (processGractLists_events_cancel ls st evts t h)

theorem interpretResponse_next_state (st : EngineState) (resp : ModMsg)
    (evts : List Event) (st' : EngineState) (evts' : List Event)
    (h : interpretResponse st resp evts = .next st' evts') :
    st'.aws = st.aws ∧ (st.players ≠ [] → st'.players ≠ []) := by
  cases resp with
  | ChangeStateModMsg j s =>
    simp only [interpretResponse, StepResult.next.injEq] at h
    obtain ⟨rfl, -⟩ := h
    exact ⟨rfl, fun hne => hne⟩
  | EmptyModMsg =>
    simp only [interpretResponse, StepResult.next.injEq] at h
    obtain ⟨rfl, -⟩ := h
    exact ⟨rfl, fun hne => hne⟩
  | EndRoundModMsg r =>
    simp only [interpretResponse, StepResult.next.injEq] at h
    obtain ⟨rfl, -⟩ := h
    exact ⟨rfl, fun hne => hne⟩
  | EndGameModMsg r => simp [interpretResponse] at h
  | GractModMsg ls => exact processGractLists_next_state ls st evts st' evts' h

theorem processBatch_nil (mod : ModuleFun) (log : List EngMsg) (st : EngineState)
    (acc : List Event) : processBatch mod log st [] acc = (.continues st acc, log) := rfl

theorem processBatch_cons_skip {mod : ModuleFun} {log : List EngMsg} {st st1 : EngineState}
    {msg : EngMsg} {rest : List EngMsg} {acc evts1 : List Event}
    (h : preProcess st msg = .skip st1 evts1) :
    processBatch mod log st (msg :: rest) acc
      = processBatch mod log st1 rest (acc ++ evts1) := by
  conv_lhs => rw [processBatch.eq_def]
  simp [h]

theorem processBatch_cons_exit {mod : ModuleFun} {log : List EngMsg} {st : EngineState}
    {msg : EngMsg} {rest : List EngMsg} {acc evts1 : List Event}
    (h : preProcess st msg = .exitEngine evts1) :
    processBatch mod log st (msg :: rest) acc = (.exitEngine (acc ++ evts1), log) := by
  conv_lhs => rw [processBatch.eq_def]
  simp [h]

theorem processBatch_cons_crash {mod : ModuleFun} {log : List EngMsg} {st : EngineState}
    {msg : EngMsg} {rest : List EngMsg} {acc evts1 : List Event}
    (h : preProcess st msg = .crash evts1) :
    processBatch mod log st (msg :: rest) acc = (.crash (acc ++ evts1), log) := by
  conv_lhs => rw [processBatch.eq_def]
  simp [h]

theorem processBatch_cons_dispatch_next {mod : ModuleFun} {log : List EngMsg}
    {st st1 st2 : EngineState} {msg : EngMsg} {rest : List EngMsg}
    {acc evts1 evts2 : List Event}
    (h : preProcess st msg = .dispatch st1 evts1)
    (h2 : interpretResponse st1 (mod (log ++ [msg])) (evts1 ++ [Event.moduleCall msg])
        = .next st2 evts2) :
    processBatch mod log st (msg :: rest) acc
      = processBatch mod (log ++ [msg]) st2 rest (acc ++ evts2) := by
  conv_lhs => rw [processBatch.eq_def]
  simp [h, h2]

theorem processBatch_cons_dispatch_exit {mod : ModuleFun} {log : List EngMsg}
    {st st1 : EngineState} {msg : EngMsg} {rest : List EngMsg}
    {acc evts1 evts2 : List Event}
    (h : preProcess st msg = .dispatch st1 evts1)
    (h2 : interpretResponse st1 (mod (log ++ [msg])) (evts1 ++ [Event.moduleCall msg])
        = .exitEngine evts2) :
    processBatch mod log st (msg :: rest) acc
      = (.exitEngine (acc ++ evts2), log ++ [msg]) := by
  conv_lhs => rw [processBatch.eq_def]
  simp [h, h2]

theorem processBatch_cons_dispatch_crash {mod : ModuleFun} {log : List EngMsg}
    {st st1 : EngineState} {msg : EngMsg} {rest : List EngMsg}
    {acc evts1 evts2 : List Event}
    (h : preProcess st msg = .dispatch st1 evts1)
    (h2 : interpretResponse st1 (mod (log ++ [msg])) (evts1 ++ [Event.moduleCall msg])
        = .crash evts2) :
    processBatch mod log st (msg :: rest) acc
      = (.crash (acc ++ evts2), log ++ [msg]) := by
  conv_lhs => rw [processBatch.eq_def]
  simp [h, h2]

theorem c4_witness :
    (c4_bundle.map Prod.fst).Nodup
      ∧ (∀ pr ∈ c4_bundle, (dictGet c4_state.players pr.1).isSome)
      ∧ ∃ st', interpretResponse c4_state (.GractModMsg c4_bundle) []
          = .next st' (c4_bundle.map (fun pr => Event.send pr.1 (.gractList pr.2)))
        ∧ ∀ pr ∈ c4_bundle, ∀ pas, lastPossActions pr.2 = some pas →
            ∃ p', dictGet st'.players pr.1 = some p' ∧ p'.possible_actions = pas :=
  ⟨by decide, by decide, c4_gract_interpretation c4_state c4_bundle (by decide) (by decide)⟩

/-- C7 amended: when a batch ends in an end-game response, the tasks the
engine cancels all come from the wait tuple aws built at the end of the
previous iteration (or were already among the accumulated events); receives
scheduled during the current iteration, such as the receive of a player
admitted earlier in the same batch, are not cancelled. -/
theorem c7_endgame_cancels (msgs : List EngMsg) : ∀ (mod : ModuleFun) (log : List EngMsg)
    (st : EngineState) (acc evts : List Event) (log' : List EngMsg),
    processBatch mod log st msgs acc = (.exitEngine evts, log') →
    ∀ t, Event.cancelTask t ∈ evts → Event.cancelTask t ∈ acc ∨ t ∈ st.aws := by
  induction msgs with
  | nil =>
    intro mod log st acc evts log' h t ht
    rw [processBatch_nil] at h
    simp at h
  | cons msg rest ih =>
    intro mod log st acc evts log' h t ht
    cases hpre : preProcess st msg with
    | skip st1 evts1 =>
      have hnc : Event.cancelTask t ∉ evts1 := by
        have hx := preProcess_no_cancel st msg t
        rw [hpre] at hx
        simpa [PreResult.events] using hx
      rw [processBatch_cons_skip hpre] at h
      rcases ih mod log st1 (acc ++ evts1) evts log' h t ht with hin | hin
      · rcases List.mem_append.mp hin with h1 | h1
        · exact Or.inl h1
        · exact absurd h1 hnc
      · right
        have haws := (preProcess_state_cases st msg st1 (by rw [hpre]; rfl)).1
        rwa [haws] at hin
    | exitEngine evts1 =>
      have hnc : Event.cancelTask t ∉ evts1 := by
        have hx := preProcess_no_cancel st msg t
        rw [hpre] at hx
        simpa [PreResult.events] using hx
      rw [processBatch_cons_exit hpre] at h
      simp only [Prod.mk.injEq, BatchResult.exitEngine.injEq] at h
      obtain ⟨h1, -⟩ := h
      subst h1
      rcases List.mem_append.mp ht with h1 | h1
      · exact Or.inl h1
      · exact absurd h1 hnc
    | crash evts1 =>
      rw [processBatch_cons_crash hpre] at h
      simp at h
    | dispatch st1 evts1 =>
      have hnc : Event.cancelTask t ∉ evts1 := by
        have hx := preProcess_no_cancel st msg t
        rw [hpre] at hx
        simpa [PreResult.events] using hx
      have haws := (preProcess_state_cases st msg st1 (by rw [hpre]; rfl)).1
      cases hint : interpretResponse st1 (mod (log ++ [msg]))
          (evts1 ++ [Event.moduleCall msg]) with
      | next st2 evts2 =>
        rw [processBatch_cons_dispatch_next hpre hint] at h
        rcases ih mod (log ++ [msg]) st2 (acc ++ evts2) evts log' h t ht with hin | hin
        · rcases List.mem_append.mp hin with h1 | h1
          · exact Or.inl h1
          · have hc : Event.cancelTask t
                ∈ (interpretResponse st1 (mod (log ++ [msg]))
                    (evts1 ++ [Event.moduleCall msg])).events := by
              rw [hint]; exact h1
            rcases interpretResponse_cancel _ _ _ _ hc with h2 | h2
            · exfalso
              rcases List.mem_append.mp h2 with h3 | h3
              · exact hnc h3
              · simp at h3
            · right; rwa [haws] at h2
        · right
          have h2 := (interpretResponse_next_state _ _ _ _ _ hint).1
          rw [h2, haws] at hin
          exact hin
      | exitEngine evts2 =>
        rw [processBatch_cons_dispatch_exit hpre hint] at h
        simp only [Prod.mk.injEq, BatchResult.exitEngine.injEq] at h
        obtain ⟨h1, -⟩ := h
        subst h1
        rcases List.mem_append.mp ht with h1 | h1
        · exact Or.inl h1
        · have hc : Event.cancelTask t
              ∈ (interpretResponse st1 (mod (log ++ [msg]))
                  (evts1 ++ [Event.moduleCall msg])).events := by
            rw [hint]; exact h1
          rcases interpretResponse_cancel _ _ _ _ hc with h2 | h2
          · exfalso
            rcases List.mem_append.mp h2 with h3 | h3
            · exact hnc h3
            · simp at h3
          · right; rwa [haws] at h2
      | crash evts2 =>
        rw [processBatch_cons_dispatch_crash hpre hint] at h
        simp at h

/-- A module that ends the game in response to every message after init. -/
def c7_module : ModuleFun := fun _ => .EndGameModMsg "done"

/-- One admitted player (receive task 1), one pending joiner, wait tuple
from the previous iteration [0, 1]. -/
def c7_state : EngineState :=
  { game_id := 0, join_mode := .Open, start_mode := .Open, round_active := false,
    next_player_id := 2, new_joins := [(1, ⟨1, "jed", []⟩)],
    players := [(0, ⟨0, "zachary", []⟩)],
    player_tasks := [(0, 1)], queue_task := 0, next_task_id := 2, aws := [0, 1] }

def c7_events : List Event :=
  [Event.send 1 (.intro 0 1), Event.moduleCall (.PlayerJoinEngMsg 1 "jed"),
   Event.send 0 (.endGame "done"), Event.closeConn 0,
   Event.send 1 (.endGame "done"), Event.closeConn 1,
   Event.cancelTask 0, Event.cancelTask 1, Event.deregister]

/-- C7 counterexample: player 1 is admitted in this batch and its pending
receive gets task id 2, but the end-game triggered by that same join cancels
only the previous wait tuple [0, 1]; the receive scheduled earlier in the
same batch (task 2) is not cancelled, refuting the parenthetical of the
claim. -/
theorem c7_counterexample :
    processBatch c7_module [.InitEngMsg] c7_state [.PlayerJoinEngMsg 1 "jed"] []
        = (.exitEngine c7_events, [.InitEngMsg, .PlayerJoinEngMsg 1 "jed"])
      ∧ Event.cancelTask 2 ∉ c7_events
      ∧ ((preProcess c7_state (.PlayerJoinEngMsg 1 "jed")).state.map
            (fun s => dictGet s.player_tasks 1)) = some (some 2) :=
  ⟨rfl, by decide, rfl⟩

def c7w_state : EngineState :=
  { game_id := 0, join_mode := .Open, start_mode := .Open, round_active := true,
    next_player_id := 1, new_joins := [], players := [(0, ⟨0, "zachary", []⟩)],
    player_tasks := [(0, 1)], queue_task := 0, next_task_id := 2, aws := [0, 1] }

def c7w_events : List Event :=
  [Event.moduleCall .EndRoundEngMsg, Event.send 0 (.endGame "done"), Event.closeConn 0,
   Event.cancelTask 0, Event.cancelTask 1, Event.deregister]

theorem c7_witness :
    processBatch c7_module [] c7w_state [.EndRoundEngMsg] []
        = (.exitEngine c7w_events, [EngMsg.EndRoundEngMsg])
      ∧ ∀ t, Event.cancelTask t ∈ c7w_events →
          Event.cancelTask t ∈ ([] : List Event) ∨ t ∈ c7w_state.aws :=
  ⟨rfl, fun t ht =>
    c7_endgame_cancels [.EndRoundEngMsg] c7_module [] c7w_state [] c7w_events
      [EngMsg.EndRoundEngMsg] rfl t ht⟩

theorem processBatch_players (msgs : List EngMsg) : ∀ (mod : ModuleFun) (log : List EngMsg)
    (st : EngineState) (acc : List Event) (st' : EngineState) (evts : List Event)
    (log' : List EngMsg),
    st.players ≠ [] →
    processBatch mod log st msgs acc = (.continues st' evts, log') →
    st'.players ≠ [] := by
  induction msgs with
  | nil =>
    intro mod log st acc st' evts log' hne h
    rw [processBatch_nil] at h
    simp only [Prod.mk.injEq, BatchResult.continues.injEq] at h
    obtain ⟨⟨h1, -⟩, -⟩ := h
    subst h1
    exact hne
  | cons msg rest ih =>
    intro mod log st acc st' evts log' hne h
    cases hpre : preProcess st msg with
    | skip st1 evts1 =>
      rw [processBatch_cons_skip hpre] at h
      have h1 := (preProcess_state_cases st msg st1 (by rw [hpre]; rfl)).2 hne
      exact ih mod log st1 (acc ++ evts1) st' evts log' h1 h
    | exitEngine evts1 =>
      rw [processBatch_cons_exit hpre] at h
      simp at h
    | crash evts1 =>
      rw [processBatch_cons_crash hpre] at h
      simp at h
    | dispatch st1 evts1 =>
      have h1 := (preProcess_state_cases st msg st1 (by rw [hpre]; rfl)).2 hne
      cases hint : interpretResponse st1 (mod (log ++ [msg]))
          (evts1 ++ [Event.moduleCall msg]) with
      | next st2 evts2 =>
        rw [processBatch_cons_dispatch_next hpre hint] at h
        have h2 := (interpretResponse_next_state _ _ _ _ _ hint).2 h1
        exact ih mod (log ++ [msg]) st2 (acc ++ evts2) st' evts log' h2 h
      | exitEngine evts2 =>
        rw [processBatch_cons_dispatch_exit hpre hint] at h
        simp at h
      | crash evts2 =>
        rw [processBatch_cons_dispatch_crash hpre hint] at h
        simp at h

/-- C6 amended: processing PlayerLeave(id) removes the player from the
players and pending-receives maps; if the players map becomes empty the
engine deregisters and exits without calling the module, and otherwise the
player-leave hook is called on the reduced state and its return processed.
Hence a batch processed from a state with at least one admitted player never
continues into a state with zero admitted players: when the last player
leaves, the engine exits and is removed from the manager.  (An engine that
has not yet admitted any player remains registered after a batch.) -/
theorem c6_leave_teardown :
    (∀ (st : EngineState) (pid : Nat) (resp : ModMsg) (p : Player) (tk : Nat),
        dictGet st.players pid = some p →
        dictGet st.player_tasks pid = some tk →
        (dictDel st.players pid = [] →
            processMsg st (.PlayerLeaveEngMsg pid) resp = .exitEngine [Event.deregister])
          ∧ (dictDel st.players pid ≠ [] →
            processMsg st (.PlayerLeaveEngMsg pid) resp
              = interpretResponse
                  { st with players := dictDel st.players pid,
                            player_tasks := dictDel st.player_tasks pid }
                  resp [Event.moduleCall (.PlayerLeaveEngMsg pid)]))
    ∧ (∀ (msgs : List EngMsg) (mod : ModuleFun) (log : List EngMsg) (st : EngineState)
        (acc : List Event) (st' : EngineState) (evts : List Event) (log' : List EngMsg),
        st.players ≠ [] →
        processBatch mod log st msgs acc = (.continues st' evts, log') →
        st'.players ≠ []) := by
  constructor
  · intro st pid resp p tk hp ht
    constructor
    · intro hdel
      simp [processMsg, preProcess, hp, ht, hdel]
    · intro hdel
      simp [processMsg, preProcess, hp, ht, hdel]
  · exact processBatch_players

/-- The state left by one iteration whose only ready source was a connection
from the join channel that closed before introducing itself. -/
def c6_after_state : EngineState :=
  { game_id := 0, join_mode := .Open, start_mode := .Open, round_active := false,
    next_player_id := 0, new_joins := [], players := [], player_tasks := [],
    queue_task := 1, next_task_id := 2, aws := [1] }

/-- C6 counterexample to the final sentence of the claim: an engine that has
admitted nobody processes a batch (a joining connection closed before its
intro, so the batch is empty) and keeps running with zero admitted players
while still registered in the manager: the run continues and no deregister
event is emitted. -/
theorem c6_counterexample :
    engineRun initOpenModule 0 [⟨some .WsCloseMsg, []⟩]
        = .running c6_after_state [.InitEngMsg] []
      ∧ c6_after_state.players = [] :=
  ⟨rfl, rfl⟩

theorem c6_witness :
    dictGet c9_state.players 1 = some ⟨1, "jed", []⟩
      ∧ dictGet c9_state.player_tasks 1 = some 3
      ∧ dictDel c9_state.players 1 ≠ []
      ∧ processMsg c9_state (.PlayerLeaveEngMsg 1) .EmptyModMsg
          = interpretResponse
              { c9_state with players := dictDel c9_state.players 1,
                              player_tasks := dictDel c9_state.player_tasks 1 }
              .EmptyModMsg [Event.moduleCall (.PlayerLeaveEngMsg 1)]
      ∧ c1_state.players ≠ [] :=
  ⟨rfl, rfl, by decide,
    (c6_leave_teardown.1 c9_state 1 .EmptyModMsg ⟨1, "jed", []⟩ 3 rfl rfl).2 (by decide),
    c6_leave_teardown.2 [] initOpenModule [] c1_state [] c1_state [] [] (by decide) rfl⟩

theorem processBatch_log (msgs : List EngMsg) : ∀ (mod : ModuleFun) (log : List EngMsg)
    (st : EngineState) (acc : List Event),
    ∃ ext, (processBatch mod log st msgs acc).2 = log ++ ext ∧ ∀ m ∈ ext, m ∈ msgs := by
  induction msgs with
  | nil =>
    intro mod log st acc
    exact ⟨[], by simp [processBatch_nil], by simp⟩
  | cons msg rest ih =>
    intro mod log st acc
    cases hpre : preProcess st msg with
    | skip st1 evts1 =>
      obtain ⟨ext, h1, h2⟩ := ih mod log st1 (acc ++ evts1)
      exact ⟨ext, by rw [processBatch_cons_skip hpre]; exact h1,
        fun m hm => List.mem_cons_of_mem _ (h2 m hm)⟩
    | exitEngine evts1 =>
      exact ⟨[], by rw [processBatch_cons_exit hpre]; simp, by simp⟩
    | crash evts1 =>
      exact ⟨[], by rw [processBatch_cons_crash hpre]; simp, by simp⟩
    | dispatch st1 evts1 =>
      cases hint : interpretResponse st1 (mod (log ++ [msg]))
          (evts1 ++ [Event.moduleCall msg]) with
      | next st2 evts2 =>
        obtain ⟨ext, h1, h2⟩ := ih mod (log ++ [msg]) st2 (acc ++ evts2)
        refine ⟨msg :: ext, ?_, ?_⟩
        · rw [processBatch_cons_dispatch_next hpre hint, h1]
          simp
        · intro m hm
          rcases List.mem_cons.mp hm with rfl | hm'
          · exact List.mem_cons_self _ _
          · exact List.mem_cons_of_mem _ (h2 m hm')
      | exitEngine evts2 =>
        refine ⟨[msg], ?_, ?_⟩
        · rw [processBatch_cons_dispatch_exit hpre hint]
        · intro m hm
          simp only [List.mem_singleton] at hm
          subst hm
          exact List.mem_cons_self _ _
      | crash evts2 =>
        refine ⟨[msg], ?_, ?_⟩
        · rw [processBatch_cons_dispatch_crash hpre hint]
        · intro m hm
          simp only [List.mem_singleton] at hm
          subst hm
          exact List.mem_cons_self _ _

theorem collectPlayers_no_init :
    ∀ (inps : List (Nat × WsMsg)) (st st1 : EngineState) (msgs : List EngMsg)
      (evts : List Event),
      collectPlayers st inps = some (st1, msgs, evts) →
      ∀ m ∈ msgs, m.isInit = false := by
  intro inps
  induction inps with
  | nil =>
    intro st st1 msgs evts h m hm
    simp only [collectPlayers, Option.some.injEq, Prod.mk.injEq] at h
    obtain ⟨-, h2, -⟩ := h
    rw [← h2] at hm
    simp at hm
  | cons hd rest ih =>
    intro st st1 msgs evts h m hm
    obtain ⟨pid, wmsg⟩ := hd
    cases wmsg with
    | WsStartMsg =>
      cases hp : dictGet st.players pid with
      | none => simp [collectPlayers, hp] at h
      | some p =>
        simp only [collectPlayers, hp] at h
        cases hcp : collectPlayers
            { st with player_tasks := dictSet st.player_tasks pid st.next_task_id,
                      next_task_id := st.next_task_id + 1 } rest with
        | none => rw [hcp] at h; simp at h
        | some trip =>
          obtain ⟨stf, msgs', evts'⟩ := trip
          rw [hcp] at h
          simp only [Option.some.injEq, Prod.mk.injEq] at h
          obtain ⟨-, h2, -⟩ := h
          rw [← h2] at hm
          rcases List.mem_cons.mp hm with rfl | hm'
          · rfl
          · exact ih _ _ _ _ hcp m hm'
    | WsActionMsg a =>
      cases hp : dictGet st.players pid with
      | none => simp [collectPlayers, hp] at h
      | some p =>
        simp only [collectPlayers, hp] at h
        cases hcp : collectPlayers
            { st with player_tasks := dictSet st.player_tasks pid st.next_task_id,
                      next_task_id := st.next_task_id + 1 } rest with
        | none => rw [hcp] at h; simp at h
        | some trip =>
          obtain ⟨stf, msgs', evts'⟩ := trip
          rw [hcp] at h
          simp only [Option.some.injEq, Prod.mk.injEq] at h
          obtain ⟨-, h2, -⟩ := h
          rw [← h2] at hm
          rcases List.mem_cons.mp hm with rfl | hm'
          · rfl
          · exact ih _ _ _ _ hcp m hm'
    | WsIntroMsg name =>
      cases hp : dictGet st.players pid with
      | none => simp [collectPlayers, hp] at h
      | some p =>
        simp only [collectPlayers, hp] at h
        cases hcp : collectPlayers st rest with
        | none => rw [hcp] at h; simp at h
        | some trip =>
          obtain ⟨stf, msgs', evts'⟩ := trip
          rw [hcp] at h
          simp only [Option.some.injEq, Prod.mk.injEq] at h
          obtain ⟨-, h2, -⟩ := h
          rw [← h2] at hm
          rcases List.mem_cons.mp hm with rfl | hm'
          · rfl
          · exact ih _ _ _ _ hcp m hm'
    | WsCloseMsg =>
      cases hp : dictGet st.players pid with
      | none => simp [collectPlayers, hp] at h
      | some p =>
        simp only [collectPlayers, hp] at h
        cases hcp : collectPlayers st rest with
        | none => rw [hcp] at h; simp at h
        | some trip =>
          obtain ⟨stf, msgs', evts'⟩ := trip
          rw [hcp] at h
          simp only [Option.some.injEq, Prod.mk.injEq] at h
          obtain ⟨-, h2, -⟩ := h
          rw [← h2] at hm
          rcases List.mem_cons.mp hm with rfl | hm'
          · rfl
          · exact ih _ _ _ _ hcp m hm'

theorem collect_no_init (st : EngineState) (inp : IterationInput) (st1 : EngineState)
    (msgs : List EngMsg) (evts : List Event)
    (h : collect st inp = some (st1, msgs, evts)) :
    ∀ m ∈ msgs, m.isInit = false := by
  intro m hm
  unfold collect at h
  cases hq : inp.queue_msg with
  | none =>
    simp only [hq] at h
    cases hcp : collectPlayers st inp.player_msgs with
    | none => rw [hcp] at h; simp at h
    | some trip =>
      obtain ⟨st2, pm, ev2⟩ := trip
      rw [hcp] at h
      simp only [Option.some.injEq, Prod.mk.injEq, List.nil_append] at h
      obtain ⟨-, h2, -⟩ := h
      rw [← h2] at hm
      exact collectPlayers_no_init _ _ _ _ _ hcp m hm
  | some w =>
    cases w with
    | WsIntroMsg name =>
      simp only [hq] at h
      cases hcp : collectPlayers
          { st with
              next_player_id := st.next_player_id + 1,
              new_joins := dictSet st.new_joins st.next_player_id
                ⟨st.next_player_id, name, []⟩,
              queue_task := st.next_task_id,
              next_task_id := st.next_task_id + 1 } inp.player_msgs with
      | none => rw [hcp] at h; simp at h
      | some trip =>
        obtain ⟨st2, pm, ev2⟩ := trip
        rw [hcp] at h
        simp only [Option.some.injEq, Prod.mk.injEq, List.singleton_append] at h
        obtain ⟨-, h2, -⟩ := h
        rw [← h2] at hm
        rcases List.mem_cons.mp hm with rfl | hm'
        · rfl
        · exact collectPlayers_no_init _ _ _ _ _ hcp m hm'
    | WsStartMsg =>
      simp only [hq] at h
      cases hcp : collectPlayers
          { st with queue_task := st.next_task_id,
                    next_task_id := st.next_task_id + 1 } inp.player_msgs with
      | none => rw [hcp] at h; simp at h
      | some trip =>
        obtain ⟨st2, pm, ev2⟩ := trip
        rw [hcp] at h
        simp only [Option.some.injEq, Prod.mk.injEq, List.nil_append] at h
        obtain ⟨-, h2, -⟩ := h
        rw [← h2] at hm
        exact collectPlayers_no_init _ _ _ _ _ hcp m hm
    | WsActionMsg a =>
      simp only [hq] at h
      cases hcp : collectPlayers
          { st with queue_task := st.next_task_id,
                    next_task_id := st.next_task_id + 1 } inp.player_msgs with
      | none => rw [hcp] at h; simp at h
      | some trip =>
        obtain ⟨st2, pm, ev2⟩ := trip
        rw [hcp] at h
        simp only [Option.some.injEq, Prod.mk.injEq, List.nil_append] at h
        obtain ⟨-, h2, -⟩ := h
        rw [← h2] at hm
        exact collectPlayers_no_init _ _ _ _ _ hcp m hm
    | WsCloseMsg =>
      simp only [hq] at h
      cases hcp : collectPlayers
          { st with queue_task := st.next_task_id,
                    next_task_id := st.next_task_id + 1 } inp.player_msgs with
      | none => rw [hcp] at h; simp at h
      | some trip =>
        obtain ⟨st2, pm, ev2⟩ := trip
        rw [hcp] at h
        simp only [Option.some.injEq, Prod.mk.injEq, List.nil_append] at h
        obtain ⟨-, h2, -⟩ := h
        rw [← h2] at hm
        exact collectPlayers_no_init _ _ _ _ _ hcp m hm

theorem runLoop_nil (mod : ModuleFun) (log : List EngMsg) (st : EngineState)
    (acc : List Event) : runLoop mod log st [] acc = .running st log acc := rfl

theorem runLoop_cons_continues {mod : ModuleFun} {log log' : List EngMsg}
    {st st' : EngineState} {inp : IterationInput} {rest : List IterationInput}
    {acc evts : List Event}
    (h : runIteration mod log st inp = (.continues st' evts, log')) :
    runLoop mod log st (inp :: rest) acc = runLoop mod log' st' rest (acc ++ evts) := by
  conv_lhs => rw [runLoop.eq_def]
  simp [h]

theorem runLoop_cons_exit {mod : ModuleFun} {log log' : List EngMsg}
    {st : EngineState} {inp : IterationInput} {rest : List IterationInput}
    {acc evts : List Event}
    (h : runIteration mod log st inp = (.exitEngine evts, log')) :
    runLoop mod log st (inp :: rest) acc = .exited log' (acc ++ evts) := by
  conv_lhs => rw [runLoop.eq_def]
  simp [h]

theorem runLoop_cons_crash {mod : ModuleFun} {log log' : List EngMsg}
    {st : EngineState} {inp : IterationInput} {rest : List IterationInput}
    {acc evts : List Event}
    (h : runIteration mod log st inp = (.crash evts, log')) :
    runLoop mod log st (inp :: rest) acc = .crashed log' (acc ++ evts) := by
  conv_lhs => rw [runLoop.eq_def]
  simp [h]

theorem runIteration_log (mod : ModuleFun) (log : List EngMsg) (st : EngineState)
    (inp : IterationInput) :
    ∃ ext, (runIteration mod log st inp).2 = log ++ ext
      ∧ ∀ m ∈ ext, m.isInit = false := by
  unfold runIteration
  cases hcol : collect st inp with
  | none => exact ⟨[], by simp, by simp⟩
  | some trip =>
    obtain ⟨st1, msgs, evts0⟩ := trip
    obtain ⟨ext, h1, h2⟩ := processBatch_log msgs mod log st1 evts0
    have hni : ∀ m ∈ ext, m.isInit = false := fun m hm =>
      collect_no_init st inp st1 msgs evts0 hcol m (h2 m hm)
    refine ⟨ext, ?_, hni⟩
    cases hpb : processBatch mod log st1 msgs evts0 with
    | mk br log2 =>
      rw [hpb] at h1
      dsimp only
      rw [hpb]
      cases br with
      | continues st2 evts => simpa using h1
      | exitEngine evts => simpa using h1
      | crash evts => simpa using h1

/-- Whether a run outcome is the init-probe teardown. -/
def RunResult.isTorndownB : RunResult → Bool
  | .torndown _ => true
  | _ => false

theorem runLoop_not_torndown (inputs : List IterationInput) :
    ∀ (mod : ModuleFun) (log : List EngMsg) (st : EngineState) (acc : List Event),
      (runLoop mod log st inputs acc).isTorndownB = false := by
  induction inputs with
  | nil => intro mod log st acc; rfl
  | cons inp rest ih =>
    intro mod log st acc
    cases hri : runIteration mod log st inp with
    | mk br log2 =>
      cases br with
      | continues st2 evts =>
        rw [runLoop_cons_continues hri]
        exact ih mod log2 st2 (acc ++ evts)
      | exitEngine evts => rw [runLoop_cons_exit hri]; rfl
      | crash evts => rw [runLoop_cons_crash hri]; rfl

theorem runLoop_callLog (inputs : List IterationInput) :
    ∀ (mod : ModuleFun) (log : List EngMsg) (st : EngineState) (acc : List Event),
      log.head? = some .InitEngMsg → log.countP EngMsg.isInit = 1 →
      (runLoop mod log st inputs acc).callLog.head? = some .InitEngMsg
        ∧ (runLoop mod log st inputs acc).callLog.countP EngMsg.isInit = 1 := by
  induction inputs with
  | nil =>
    intro mod log st acc h1 h2
    rw [runLoop_nil]
    exact ⟨h1, h2⟩
  | cons inp rest ih =>
    intro mod log st acc h1 h2
    obtain ⟨ext, hext, hni⟩ := runIteration_log mod log st inp
    cases hri : runIteration mod log st inp with
    | mk br log2 =>
      rw [hri] at hext
      have hl : log2.head? = some .InitEngMsg ∧ log2.countP EngMsg.isInit = 1 := by
        simp only at hext
        subst hext
        constructor
        · cases log with
          | nil => simp at h1
          | cons a l => simpa using h1
        · rw [List.countP_append, h2]
          have hz : ext.countP EngMsg.isInit = 0 :=
            List.countP_eq_zero.mpr (fun m hm => by simp [hni m hm])
          rw [hz]
      cases br with
      | continues st2 evts =>
        rw [runLoop_cons_continues hri]
        exact ih mod log2 st2 (acc ++ evts) hl.1 hl.2
      | exitEngine evts =>
        rw [runLoop_cons_exit hri]
        exact hl
      | crash evts =>
        rw [runLoop_cons_crash hri]
        exact hl

theorem engineRun_none (mod : ModuleFun) (gid : Nat) (inputs : List IterationInput)
    (h : engineInit (mod [.InitEngMsg]) = none) :
    engineRun mod gid inputs = .torndown [.InitEngMsg] := by
  unfold engineRun
  simp [h]

theorem engineRun_some (mod : ModuleFun) (gid : Nat) (inputs : List IterationInput)
    (j s : Mode) (h : engineInit (mod [.InitEngMsg]) = some (j, s)) :
    engineRun mod gid inputs
      = runLoop mod [.InitEngMsg] (initialState gid j s) inputs [] := by
  unfold engineRun
  simp [h]

/-- C5: in every engine run the init probe is the first module call and the
only InitEngMsg ever sent; the run is a teardown (deregistering before any
player is admitted) exactly when the probe return is not a ChangeStateModMsg
with an Open join mode; and when it is, the returned modes are installed as
the initial modes of the loop. -/
theorem c5_init_probe (mod : ModuleFun) (gid : Nat) (inputs : List IterationInput) :
    ((engineRun mod gid inputs).callLog.head? = some .InitEngMsg
      ∧ (engineRun mod gid inputs).callLog.countP EngMsg.isInit = 1)
    ∧ ((engineRun mod gid inputs).isTorndownB = true
        ↔ ¬ ∃ s, mod [.InitEngMsg] = .ChangeStateModMsg .Open s)
    ∧ (∀ s, mod [.InitEngMsg] = .ChangeStateModMsg .Open s →
        engineRun mod gid inputs
          = runLoop mod [.InitEngMsg] (initialState gid .Open s) inputs []) := by
  by_cases hop : ∃ s, mod [.InitEngMsg] = .ChangeStateModMsg .Open s
  · obtain ⟨s, hs⟩ := hop
    have hinit : engineInit (mod [.InitEngMsg]) = some (.Open, s) := by
      rw [hs]; rfl
    have hrun := engineRun_some mod gid inputs .Open s hinit
    refine ⟨?_, ?_, ?_⟩
    · rw [hrun]
      exact runLoop_callLog inputs mod [.InitEngMsg] (initialState gid .Open s) []
        rfl (by decide)
    · rw [hrun, runLoop_not_torndown inputs mod [.InitEngMsg] (initialState gid .Open s) []]
      constructor
      · intro hx; simp at hx
      · intro hx; exact absurd ⟨s, hs⟩ hx
    · intro s' hs'
      have hinit' : engineInit (mod [.InitEngMsg]) = some (.Open, s') := by
        rw [hs']; rfl
      exact engineRun_some mod gid inputs .Open s' hinit'
  · have hinit : engineInit (mod [.InitEngMsg]) = none := by
      cases hresp : mod [.InitEngMsg] with
      | ChangeStateModMsg j s =>
        cases j with
        | Open => exact absurd ⟨s, hresp⟩ hop
        | Closed r => simp [engineInit]
      | EmptyModMsg => simp [engineInit]
      | EndRoundModMsg r => simp [engineInit]
      | EndGameModMsg r => simp [engineInit]
      | GractModMsg ls => simp [engineInit]
    have hrun := engineRun_none mod gid inputs hinit
    refine ⟨?_, ?_, ?_⟩
    · rw [hrun]
      exact ⟨rfl, by decide⟩
    · rw [hrun]
      exact ⟨fun _ => hop, fun _ => rfl⟩
    · intro s' hs'
      exact absurd ⟨s', hs'⟩ hop

theorem c5_witness :
    initOpenModule [.InitEngMsg] = .ChangeStateModMsg .Open .Open
      ∧ engineRun initOpenModule 0 []
          = runLoop initOpenModule [.InitEngMsg] (initialState 0 .Open .Open) [] [] :=
  ⟨rfl, (c5_init_probe initOpenModule 0 []).2.2 .Open rfl⟩

end Gradian
